import Mathlib

set_option maxRecDepth 8000

/-!
Shallow embedding of the pngme chunk format: the validated chunk type code
(`src/chunk_type.rs`), the CRC-protected chunk record (`src/chunk.rs`), and the
whole-file container described by the specification.  Machine integers are
modelled as `Nat` with explicit `% 2^32` where u32 overflow matters; byte
buffers are `List Nat` whose entries are intended to be `< 256`.
-/

/-- Failure taxonomy of the parsing operations (spec §7).  The Rust source uses
a boxed catch-all error; the distinct failure points of the code map onto these
variants: `read_exact` shortfall → `truncated`, `ChunkType` rejection (either
UTF-8 decoding or the letter check) → `invalidTypeCode`, the CRC comparison in
`Chunk::try_from` → `checksumMismatch`, and the signature comparison of the
container → `badSignature`. -/
inductive PngError where
  | truncated
  | invalidTypeCode
  | checksumMismatch
  | badSignature
deriving DecidableEq

/-- `u8::is_ascii_alphabetic`: `b'A'..=b'Z' | b'a'..=b'z'`. -/
def isAsciiAlphabetic (b : Nat) : Bool :=
  (65 ≤ b && b ≤ 90) || (97 ≤ b && b ≤ 122)

/-- A chunk type code: the four bytes of the stored 4-character string
(`struct ChunkType(String)` in `src/chunk_type.rs`). -/
structure ChunkType where
  b0 : Nat
  b1 : Nat
  b2 : Nat
  b3 : Nat
deriving DecidableEq

/-- `ChunkType::bytes`: the raw bytes of the stored string. -/
def ChunkType.bytes (t : ChunkType) : List Nat := [t.b0, t.b1, t.b2, t.b3]

/-- `ChunkType::build`: succeeds iff the input has length 4 and every byte is
an ASCII letter (`chunk_type.len() == 4 && chunk_type.chars().all(|c|
c.is_ascii_alphabetic())`); the length-4 test is the four-element pattern. -/
def ChunkType.build (s : List Nat) : Except PngError ChunkType :=
  match s with
  | [a, b, c, d] =>
    if isAsciiAlphabetic a && isAsciiAlphabetic b &&
       isAsciiAlphabetic c && isAsciiAlphabetic d
    then .ok ⟨a, b, c, d⟩
    else .error .invalidTypeCode
  | _ => .error .invalidTypeCode

/-- `FromStr for ChunkType`: delegates to `ChunkType::build` on the string's
bytes. -/
def ChunkType.fromStr (s : List Nat) : Except PngError ChunkType :=
  ChunkType.build s

/-- `TryFrom<[u8; 4]> for ChunkType`: `str::from_utf8` then `from_str`.  An
all-letter input is ASCII and hence valid UTF-8, and an input that fails UTF-8
decoding contains a byte ≥ 0x80, which is not an ASCII letter; both rejection
paths land in `invalidTypeCode`, so the UTF-8 step is absorbed by the letter
check. -/
def ChunkType.tryFrom (s : List Nat) : Except PngError ChunkType :=
  ChunkType.build s

/-- `ChunkType::fifth_bit_is_zero`: `byte & 0x20 == 0`. -/
def ChunkType.fifth_bit_is_zero (byte : Nat) : Bool := byte &&& 0x20 == 0

/-- `ChunkType::is_critical`: bit 0x20 of byte 0. -/
def ChunkType.is_critical (t : ChunkType) : Bool :=
  ChunkType.fifth_bit_is_zero t.b0

/-- `ChunkType::is_public`: bit 0x20 of byte 1. -/
def ChunkType.is_public (t : ChunkType) : Bool :=
  ChunkType.fifth_bit_is_zero t.b1

/-- `ChunkType::is_reserved_bit_valid`: bit 0x20 of byte 2. -/
def ChunkType.is_reserved_bit_valid (t : ChunkType) : Bool :=
  ChunkType.fifth_bit_is_zero t.b2

/-- `ChunkType::is_safe_to_copy`: bit 0x20 of byte 3, inverted polarity. -/
def ChunkType.is_safe_to_copy (t : ChunkType) : Bool :=
  ! ChunkType.fifth_bit_is_zero t.b3

/-- `ChunkType::is_valid`: delegates to `is_reserved_bit_valid`. -/
def ChunkType.is_valid (t : ChunkType) : Bool :=
  t.is_reserved_bit_valid

/-- Reflected generator polynomial of CRC-32/ISO-HDLC (0x04C11DB7 reflected). -/
def crcPoly : Nat := 0xEDB88320

/-- One bit-step of the reflected CRC-32 register update: shift right, xor in
the reflected polynomial when the bit shifted out was set. -/
def crcStep (c : Nat) : Nat :=
  (c >>> 1) ^^^ (if c % 2 = 1 then crcPoly else 0)

/-- Eight bit-steps: the shifting part of processing one byte. -/
def crcStep8 (c : Nat) : Nat :=
  crcStep (crcStep (crcStep (crcStep (crcStep (crcStep (crcStep (crcStep c)))))))

/-- Per-byte update of the reflected CRC-32 register; bit-serial form of the
table lookup `table[(crc ^ byte) & 0xFF] ^ (crc >> 8)` used by the `crc`
crate's `CRC_32_ISO_HDLC` implementation. -/
def crcUpdate (c b : Nat) : Nat := crcStep8 (c ^^^ b)

/-- Runs the CRC register over a byte list from initial value `c`. -/
def crcRun (c : Nat) (l : List Nat) : Nat := l.foldl crcUpdate c

/-- `CRC_HDLC.checksum`: CRC-32/ISO-HDLC with init `0xFFFFFFFF` and xorout
`0xFFFFFFFF` (the algorithm used by zlib and PNG). -/
def crc32 (l : List Nat) : Nat := crcRun 0xFFFFFFFF l ^^^ 0xFFFFFFFF

/-- `u32::to_be_bytes`. -/
def toBE32 (n : Nat) : List Nat :=
  [n / 2^24 % 256, n / 2^16 % 256, n / 2^8 % 256, n % 256]

/-- `u32::from_be_bytes` (the parser only applies it to 4-byte lists). -/
def fromBE32 (l : List Nat) : Nat :=
  match l with
  | [a, b, c, d] => ((a * 256 + b) * 256 + c) * 256 + d
  | _ => 0

/-- `struct Chunk` of `src/chunk.rs`: stored length, type code, payload and
stored CRC. -/
structure Chunk where
  length : Nat
  chunkType : ChunkType
  data : List Nat
  crc : Nat
deriving DecidableEq

/-- `Chunk::new`: chains the type bytes with the data, computes the CRC over
the chained bytes, and stores `data.len() as u32` (hence the `% 2^32`). -/
def Chunk.new (chunkType : ChunkType) (data : List Nat) : Chunk :=
  { length := data.length % 2^32
    chunkType := chunkType
    data := data
    crc := crc32 (chunkType.bytes ++ data) }

/-- `Chunk::as_bytes`: big-endian length, type bytes, data, big-endian CRC. -/
def Chunk.asBytes (c : Chunk) : List Nat :=
  toBE32 c.length ++ (c.chunkType.bytes ++ (c.data ++ toBE32 c.crc))

/-- `TryFrom<&[u8]> for Chunk`: four sequential `read_exact`s through a
`BufReader` (4-byte BE length, 4-byte type code, `length` data bytes, 4-byte
BE CRC), modelled by `take`/`drop` on the buffer; each shortfall is
`truncated`, the type-code rejection propagates, and the final comparison
`chunk.crc != crc` yields `checksumMismatch`. -/
def Chunk.tryFrom (value : List Nat) : Except PngError Chunk :=
  if value.length < 4 then .error .truncated else
  let length := fromBE32 (value.take 4)
  let r1 := value.drop 4
  if r1.length < 4 then .error .truncated else
  match ChunkType.build (r1.take 4) with
  | .error e => .error e
  | .ok chunkType =>
    let r2 := r1.drop 4
    if r2.length < length then .error .truncated else
    let data := r2.take length
    let r3 := r2.drop length
    if r3.length < 4 then .error .truncated else
    let crc := fromBE32 (r3.take 4)
    let chunk := Chunk.new chunkType data
    if chunk.crc ≠ crc then .error .checksumMismatch else .ok chunk

/-- Flip bit `j` of byte `i` of a buffer. -/
def flipBit (v : List Nat) (i j : Nat) : List Nat :=
  v.set i (v.getD i 0 ^^^ 2^j)

/-- The record-parse procedure as worded by spec §4.2, used as the refinement
reference for `Chunk.tryFrom`: read a 4-byte big-endian length, a 4-byte type
code validated per §4.1 with its failure propagated, exactly `length` payload
bytes, and a 4-byte big-endian checksum, failing with `truncated` whenever the
buffer holds fewer bytes than the field requires; then recompute the checksum
over type bytes ++ payload and fail with `checksumMismatch` unless it equals
the stored value, in which case the record is built through the construct
path. -/
def chunkParseSpec (buf : List Nat) : Except PngError Chunk :=
  if buf.length < 4 then .error .truncated
  else
    let len := fromBE32 (buf.take 4)
    if buf.length < 8 then .error .truncated
    else
      match ChunkType.build ((buf.drop 4).take 4) with
      | .error e => .error e
      | .ok tc =>
        if buf.length < 8 + len then .error .truncated
        else
          let payload := (buf.drop 8).take len
          if buf.length < 12 + len then .error .truncated
          else
            let stored := fromBE32 ((buf.drop (8 + len)).take 4)
            if crc32 (tc.bytes ++ payload) = stored
            then .ok (Chunk.new tc payload)
            else .error .checksumMismatch

/-- Modelled from the spec: the fixed 8-byte file signature constant of §4.3
(`{0x89, 'P', 'N', 'G', 0x0D, 0x0A, 0x1A, 0x0A}`); the container source file
`png.rs` is not available. -/
def pngSignature : List Nat := [0x89, 0x50, 0x4E, 0x47, 0x0D, 0x0A, 0x1A, 0x0A]

/-- Modelled from the spec: the ChunkContainer of §3, an ordered sequence of
chunk records; the container source file `png.rs` is not available. -/
structure Png where
  chunks : List Chunk
deriving DecidableEq

/-- Modelled from the spec: concatenation of each contained record's
serialization, in stored order (§4.3). -/
def serializeChunks : List Chunk → List Nat
  | [] => []
  | c :: cs => c.asBytes ++ serializeChunks cs

/-- Modelled from the spec: `ChunkContainer::serialize` — signature constant
followed by the records' serializations in stored order (§4.3). -/
def Png.asBytes (p : Png) : List Nat := pngSignature ++ serializeChunks p.chunks

/-- Modelled from the spec: the record loop of `ChunkContainer::parse` —
repeatedly parse a record from the remaining bytes, advance the cursor by the
record's exact serialized size (`length + 12`), and stop when the cursor
reaches the end of the buffer exactly, propagating any record-parse failure
(§4.3). -/
def parseChunks (buf : List Nat) : Except PngError (List Chunk) :=
  if h : buf = [] then .ok []
  else
    match Chunk.tryFrom buf with
    | .error e => .error e
    | .ok c =>
      match parseChunks (buf.drop (c.length + 12)) with
      | .error e => .error e
      | .ok cs => .ok (c :: cs)
termination_by buf.length
decreasing_by
  simp only [List.length_drop]
  have hpos : 0 < buf.length := List.length_pos.mpr h
  omega

/-- Modelled from the spec: `ChunkContainer::parse` — `badSignature` unless
the buffer starts with the 8-byte signature constant (which also rejects
buffers shorter than 8 bytes), then the record loop over the rest (§4.3). -/
def Png.tryFrom (buf : List Nat) : Except PngError Png :=
  if buf.take 8 = pngSignature
  then (parseChunks (buf.drop 8)).map Png.mk
  else .error .badSignature

/-- Well-formedness of a record per the spec's data model (§3): the stored
length is the payload byte count (and fits in a u32), the type bytes are
ASCII letters, the payload entries are bytes, and the stored checksum is the
CRC-32/ISO-HDLC of type bytes ++ payload. -/
def ChunkWF (c : Chunk) : Prop :=
  c.length = c.data.length ∧
  c.data.length < 2^32 ∧
  c.chunkType.bytes.all isAsciiAlphabetic = true ∧
  (∀ b ∈ c.data, b < 256) ∧
  c.crc = crc32 (c.chunkType.bytes ++ c.data)

instance (c : Chunk) : Decidable (ChunkWF c) := by
  unfold ChunkWF
  infer_instance

deriving instance DecidableEq for Except

/-- Model validation: the CRC-32/ISO-HDLC check value over `"123456789"`. -/
theorem crc32_check_value : crc32 [49, 50, 51, 52, 53, 54, 55, 56, 57] = 0xCBF43926 := by
  decide

/-- Model validation: the CRC-32/ISO-HDLC value of the bytes of `"RuSt"`. -/
theorem crc32_rust_value : crc32 [82, 117, 83, 116] = 3565422908 := by
  decide

/-! ### Byte-order helpers -/

theorem toBE32_length (n : Nat) : (toBE32 n).length = 4 := rfl

theorem toBE32_lt (n : Nat) : ∀ b ∈ toBE32 n, b < 256 := by
  simp only [toBE32, List.mem_cons, List.not_mem_nil, or_false]
  intro b hb
  rcases hb with rfl | rfl | rfl | rfl <;> omega

theorem fromBE32_toBE32 (n : Nat) (h : n < 2^32) : fromBE32 (toBE32 n) = n := by
  simp only [toBE32, fromBE32]
  omega

theorem fromBE32_lt (l : List Nat) (h4 : l.length = 4) (h : ∀ b ∈ l, b < 256) :
    fromBE32 l < 2^32 := by
  rcases l with _ | ⟨a, _ | ⟨b, _ | ⟨c, _ | ⟨d, _ | ⟨e, l⟩⟩⟩⟩⟩ <;> simp_all [fromBE32]
  have ha := h.1
  have hb := h.2.1
  have hc := h.2.2.1
  have hd := h.2.2.2
  omega

theorem toBE32_fromBE32 (l : List Nat) (h4 : l.length = 4) (h : ∀ b ∈ l, b < 256) :
    toBE32 (fromBE32 l) = l := by
  rcases l with _ | ⟨a, _ | ⟨b, _ | ⟨c, _ | ⟨d, _ | ⟨e, l⟩⟩⟩⟩⟩ <;> simp_all [fromBE32, toBE32]
  have ha := h.1
  have hb := h.2.1
  have hc := h.2.2.1
  have hd := h.2.2.2
  refine ⟨?_, ?_, ?_, ?_⟩ <;> omega

/-! ### ChunkType helpers -/

theorem alpha_lt (b : Nat) (h : isAsciiAlphabetic b = true) : b < 256 := by
  simp only [isAsciiAlphabetic, Bool.or_eq_true, Bool.and_eq_true, decide_eq_true_eq] at h
  omega

theorem bytes_inj (t u : ChunkType) (h : t.bytes = u.bytes) : t = u := by
  cases t
  cases u
  simp_all [ChunkType.bytes]

theorem build_ok_iff (s : List Nat) (t : ChunkType) :
    ChunkType.build s = .ok t ↔
      s = t.bytes ∧ t.bytes.all isAsciiAlphabetic = true := by
  constructor
  · intro h
    unfold ChunkType.build at h
    split at h
    · split at h
      · rename_i a b c d hcond
        rcases Except.ok.inj h with rfl
        simp_all [ChunkType.bytes, List.all]
      · exact absurd h (by simp)
    · exact absurd h (by simp)
  · rintro ⟨rfl, hall⟩
    cases t
    simp_all [ChunkType.build, ChunkType.bytes, List.all]

theorem build_error_of_not_alpha (a b c d : Nat)
    (h : ([a, b, c, d].all isAsciiAlphabetic) = false) :
    ChunkType.build [a, b, c, d] = .error .invalidTypeCode := by
  simp only [ChunkType.build]
  split
  · rename_i hcond
    simp_all [List.all]
  · rfl

theorem build_length_ne (s : List Nat) (h : s.length ≠ 4) :
    ChunkType.build s = .error .invalidTypeCode := by
  rcases s with _ | ⟨a, _ | ⟨b, _ | ⟨c, _ | ⟨d, _ | ⟨e, s⟩⟩⟩⟩⟩ <;> simp_all [ChunkType.build]

/-! ### CRC-32 algebra: linearity over xor, register bounds, bit sensitivity -/

theorem xor_pair_cancel (x y p : Nat) : (x ^^^ p) ^^^ (y ^^^ p) = x ^^^ y := by
  rw [Nat.xor_assoc, Nat.xor_comm y p, ← Nat.xor_assoc p p y, Nat.xor_self,
    Nat.zero_xor]

theorem xor_shift_right (x y : Nat) : (x ^^^ y) ^^^ z = (x ^^^ z) ^^^ y := by
  rw [Nat.xor_assoc, Nat.xor_comm y z, ← Nat.xor_assoc]

theorem crcStep_xor (a b : Nat) : crcStep (a ^^^ b) = crcStep a ^^^ crcStep b := by
  unfold crcStep
  rw [Nat.shiftRight_one, Nat.shiftRight_one, Nat.shiftRight_one, Nat.xor_div_two,
    Nat.xor_mod_two_eq]
  rcases Nat.mod_two_eq_zero_or_one a with ha | ha <;>
    rcases Nat.mod_two_eq_zero_or_one b with hb | hb
  · have hab : ¬ ((a + b) % 2 = 1) := by omega
    simp [ha, hb, hab]
  · have hab : (a + b) % 2 = 1 := by omega
    simp only [ha, hb, hab, if_pos, if_neg, reduceCtorEq]
    simp [Nat.xor_assoc]
  · have hab : (a + b) % 2 = 1 := by omega
    simp only [ha, hb, hab]
    simp only [if_pos rfl, if_neg (by omega : ¬ (0 = 1))]
    rw [Nat.xor_zero, xor_shift_right]
  · have hab : ¬ ((a + b) % 2 = 1) := by omega
    simp only [ha, hb, if_pos rfl, if_neg hab, Nat.xor_zero]
    exact (xor_pair_cancel _ _ _).symm

theorem crcStep8_xor (a b : Nat) :
    crcStep8 (a ^^^ b) = crcStep8 a ^^^ crcStep8 b := by
  simp [crcStep8, crcStep_xor]

theorem crcUpdate_xor_left (c δ b : Nat) :
    crcUpdate (c ^^^ δ) b = crcUpdate c b ^^^ crcStep8 δ := by
  unfold crcUpdate
  rw [xor_shift_right, crcStep8_xor]

theorem crcRun_xor_left (l : List Nat) (c δ : Nat) :
    crcRun (c ^^^ δ) l = crcRun c l ^^^ crcStep8^[l.length] δ := by
  induction l generalizing c δ with
  | nil => simp [crcRun]
  | cons b rest ih =>
    show crcRun (crcUpdate (c ^^^ δ) b) rest = crcRun (crcUpdate c b) rest ^^^ _
    rw [crcUpdate_xor_left, ih, List.length_cons, Function.iterate_succ_apply]

theorem crcStep_bounds (c : Nat) (hc : c < 2^32) :
    crcStep c < 2^32 ∧ (c ≠ 0 → crcStep c ≠ 0) := by
  unfold crcStep
  rw [Nat.shiftRight_one]
  have hdiv : c / 2 < 2^32 := lt_of_le_of_lt (Nat.div_le_self c 2) hc
  constructor
  · split
    · exact Nat.xor_lt_two_pow hdiv (by norm_num [crcPoly])
    · simpa using hdiv
  · intro hne
    split
    · rename_i hodd
      intro hzero
      have heq : c / 2 = crcPoly := by
        have := congrArg (fun x => x ^^^ crcPoly) hzero
        simpa [Nat.xor_assoc] using this
      have hsmall : c / 2 < 2^31 := by omega
      rw [heq] at hsmall
      norm_num [crcPoly] at hsmall
    · rename_i heven
      simp only [Nat.xor_zero]
      omega

theorem crcStep8_bounds (c : Nat) (hc : c < 2^32) :
    crcStep8 c < 2^32 ∧ (c ≠ 0 → crcStep8 c ≠ 0) := by
  unfold crcStep8
  have h1 := crcStep_bounds c hc
  have h2 := crcStep_bounds _ h1.1
  have h3 := crcStep_bounds _ h2.1
  have h4 := crcStep_bounds _ h3.1
  have h5 := crcStep_bounds _ h4.1
  have h6 := crcStep_bounds _ h5.1
  have h7 := crcStep_bounds _ h6.1
  have h8 := crcStep_bounds _ h7.1
  exact ⟨h8.1, fun hne => h8.2 (h7.2 (h6.2 (h5.2 (h4.2 (h3.2 (h2.2 (h1.2 hne)))))))⟩

theorem crcStep8_iterate_ne_zero (δ : Nat) (hδ : δ ≠ 0) (hlt : δ < 2^32) (n : Nat) :
    crcStep8^[n] δ ≠ 0 := by
  induction n generalizing δ with
  | zero => simpa using hδ
  | succ n ih =>
    rw [Function.iterate_succ_apply]
    exact ih _ ((crcStep8_bounds δ hlt).2 hδ) (crcStep8_bounds δ hlt).1

theorem xor_eq_self_iff_zero (a d : Nat) (h : a ^^^ d = a) : d = 0 := by
  have h2 := congrArg (fun x => a ^^^ x) h
  simpa [← Nat.xor_assoc, Nat.xor_self, Nat.zero_xor] using h2

theorem crcRun_lt (l : List Nat) (c : Nat) (hc : c < 2^32)
    (hl : ∀ b ∈ l, b < 256) : crcRun c l < 2^32 := by
  induction l generalizing c with
  | nil => simpa [crcRun] using hc
  | cons b rest ih =>
    show crcRun (crcUpdate c b) rest < 2^32
    refine ih _ ?_ (fun x hx => hl x (List.mem_cons_of_mem b hx))
    have hb : b < 2^32 := by
      have := hl b (List.mem_cons_self b rest)
      omega
    exact (crcStep8_bounds _ (Nat.xor_lt_two_pow hc hb)).1

theorem crc32_lt (l : List Nat) (hl : ∀ b ∈ l, b < 256) : crc32 l < 2^32 := by
  unfold crc32
  exact Nat.xor_lt_two_pow (crcRun_lt l _ (by norm_num) hl) (by norm_num)

theorem crcRun_set_ne (m : List Nat) (k e c : Nat) (hk : k < m.length)
    (he : e ≠ 0) (he2 : e < 2^32) :
    crcRun c (m.set k (m.getD k 0 ^^^ e)) ≠ crcRun c m := by
  induction m generalizing k c with
  | nil => simp at hk
  | cons b rest ih =>
    cases k with
    | zero =>
      simp only [List.getD_cons_zero, List.set_cons_zero]
      show crcRun (crcUpdate c (b ^^^ e)) rest ≠ crcRun (crcUpdate c b) rest
      have hupd : crcUpdate c (b ^^^ e) = crcUpdate c b ^^^ crcStep8 e := by
        unfold crcUpdate
        rw [← Nat.xor_assoc, crcStep8_xor]
      rw [hupd, crcRun_xor_left]
      intro hcontra
      have hzero : crcStep8^[rest.length] (crcStep8 e) = 0 :=
        xor_eq_self_iff_zero _ _ hcontra
      have : crcStep8^[rest.length + 1] e = 0 := by
        rwa [Function.iterate_succ_apply]
      exact crcStep8_iterate_ne_zero e he he2 (rest.length + 1) this
    | succ k =>
      simp only [List.getD_cons_succ, List.set_cons_succ]
      show crcRun (crcUpdate c b) (rest.set k _) ≠ crcRun (crcUpdate c b) rest
      exact ih k (crcUpdate c b) (by simpa using hk)

theorem crc32_set_ne (m : List Nat) (k e : Nat) (hk : k < m.length)
    (he : e ≠ 0) (he2 : e < 2^32) :
    crc32 (m.set k (m.getD k 0 ^^^ e)) ≠ crc32 m := by
  unfold crc32
  intro hcontra
  have : crcRun 0xFFFFFFFF (m.set k (m.getD k 0 ^^^ e)) = crcRun 0xFFFFFFFF m := by
    have h2 := congrArg (fun x => x ^^^ 0xFFFFFFFF) hcontra
    simpa [Nat.xor_cancel_right] using h2
  exact crcRun_set_ne m k e _ hk he he2 this

/-! ### Parsing a buffer decomposed into its four fields -/

theorem tryFrom_decomp (n : Nat) (T D C R : List Nat)
    (hT : T.length = 4) (hD : D.length = n) (hn : n < 2^32) (hC : C.length = 4) :
    Chunk.tryFrom (toBE32 n ++ (T ++ (D ++ (C ++ R)))) =
      match ChunkType.build T with
      | .error e => .error e
      | .ok t =>
        if crc32 (t.bytes ++ D) ≠ fromBE32 C then .error .checksumMismatch
        else .ok (Chunk.new t D) := by
  have hvtake : (toBE32 n ++ (T ++ (D ++ (C ++ R)))).take 4 = toBE32 n :=
    List.take_left' (toBE32_length n)
  have hvdrop : (toBE32 n ++ (T ++ (D ++ (C ++ R)))).drop 4 = T ++ (D ++ (C ++ R)) :=
    List.drop_left' (toBE32_length n)
  have h1 : (T ++ (D ++ (C ++ R))).take 4 = T := List.take_left' hT
  have h2 : (T ++ (D ++ (C ++ R))).drop 4 = D ++ (C ++ R) := List.drop_left' hT
  have h3 : (D ++ (C ++ R)).take n = D := List.take_left' hD
  have h4 : (D ++ (C ++ R)).drop n = C ++ R := List.drop_left' hD
  have h5 : (C ++ R).take 4 = C := List.take_left' hC
  simp only [Chunk.tryFrom, hvtake, hvdrop, fromBE32_toBE32 n hn, h1, h2, h3, h4, h5,
    List.length_append, toBE32_length, hT, hD, hC]
  rw [if_neg (by omega), if_neg (by omega)]
  cases hb : ChunkType.build T with
  | error e => rfl
  | ok t =>
    dsimp only
    rw [if_neg (by omega), if_neg (by omega)]
    simp [Chunk.new]

theorem bytes_length (t : ChunkType) : t.bytes.length = 4 := rfl

theorem msg_bytes_lt (t : ChunkType) (d : List Nat)
    (ht : t.bytes.all isAsciiAlphabetic = true) (hd : ∀ b ∈ d, b < 256) :
    ∀ b ∈ t.bytes ++ d, b < 256 := by
  intro b hb
  rcases List.mem_append.mp hb with hbt | hbd
  · exact alpha_lt b (by
      have := List.all_eq_true.mp ht
      simpa using this b hbt)
  · exact hd b hbd

theorem tryFrom_new_append (t : ChunkType) (d R : List Nat)
    (ht : t.bytes.all isAsciiAlphabetic = true)
    (hlen : d.length < 2^32) (hd : ∀ b ∈ d, b < 256) :
    Chunk.tryFrom ((Chunk.new t d).asBytes ++ R) = .ok (Chunk.new t d) := by
  have hb : ChunkType.build t.bytes = .ok t := (build_ok_iff _ _).mpr ⟨rfl, ht⟩
  have hcrc_lt : crc32 (t.bytes ++ d) < 2^32 := crc32_lt _ (msg_bytes_lt t d ht hd)
  have hshape : (Chunk.new t d).asBytes ++ R
      = toBE32 d.length ++ (t.bytes ++ (d ++ (toBE32 (crc32 (t.bytes ++ d)) ++ R))) := by
    simp only [Chunk.new, Chunk.asBytes, List.append_assoc]
    congr 2
    exact Nat.mod_eq_of_lt hlen
  rw [hshape,
    tryFrom_decomp d.length t.bytes d (toBE32 (crc32 (t.bytes ++ d))) R
      (bytes_length t) rfl hlen (toBE32_length _), hb]
  dsimp only
  rw [fromBE32_toBE32 _ hcrc_lt]
  rw [if_neg (by simp)]

theorem tryFrom_eq_spec (v : List Nat) : Chunk.tryFrom v = chunkParseSpec v := by
  have hcomm : ∀ k : Nat, k + 8 = 8 + k := fun k => Nat.add_comm k 8
  simp only [Chunk.tryFrom, chunkParseSpec, List.length_drop, List.drop_drop, hcomm]
  by_cases h1 : v.length < 4
  · simp [h1]
  · by_cases h2 : v.length < 8
    · have h2l : v.length - 4 < 4 := by omega
      simp [h1, h2, h2l]
    · have h2l : ¬ (v.length - 4 < 4) := by omega
      simp only [if_neg h1, if_neg h2, if_neg h2l]
      cases hb : ChunkType.build ((v.drop 4).take 4) with
      | error e => rfl
      | ok tc =>
        dsimp only
        by_cases h3 : v.length - 8 < fromBE32 (v.take 4)
        · have h3r : v.length < 8 + fromBE32 (v.take 4) := by omega
          rw [if_pos h3, if_pos h3r]
        · have h3r : ¬ (v.length < 8 + fromBE32 (v.take 4)) := by omega
          rw [if_neg h3, if_neg h3r]
          by_cases h4 : v.length - (8 + fromBE32 (v.take 4)) < 4
          · have h4r : v.length < 12 + fromBE32 (v.take 4) := by omega
            rw [if_pos h4, if_pos h4r]
          · have h4r : ¬ (v.length < 12 + fromBE32 (v.take 4)) := by omega
            rw [if_neg h4, if_neg h4r]
            simp only [Chunk.new]
            by_cases hc :
              crc32 (tc.bytes ++ (v.drop 8).take (fromBE32 (v.take 4))) =
                fromBE32 ((v.drop (8 + fromBE32 (v.take 4))).take 4)
            · rw [if_neg (not_not_intro hc), if_pos hc]
            · rw [if_pos hc, if_neg hc]

theorem tryFrom_ok_shape (v : List Nat) (c : Chunk) (h : Chunk.tryFrom v = .ok c) :
    ∃ tc, ChunkType.build ((v.drop 4).take 4) = .ok tc ∧
      c = Chunk.new tc ((v.drop 8).take (fromBE32 (v.take 4))) ∧
      ¬ v.length < 4 ∧ ¬ (v.length - 4 < 4) ∧
      ¬ (v.length - 8 < fromBE32 (v.take 4)) ∧
      ¬ (v.length - (8 + fromBE32 (v.take 4)) < 4) ∧
      c.crc = fromBE32 ((v.drop (8 + fromBE32 (v.take 4))).take 4) := by
  have hcomm : ∀ k : Nat, k + 8 = 8 + k := fun k => Nat.add_comm k 8
  simp only [Chunk.tryFrom, List.length_drop, List.drop_drop, hcomm] at h
  split at h
  · exact absurd h (by simp)
  · rename_i h1
    split at h
    · exact absurd h (by simp)
    · rename_i h2
      split at h
      · exact absurd h (by simp)
      · rename_i tc hb
        split at h
        · exact absurd h (by simp)
        · rename_i h3
          split at h
          · exact absurd h (by simp)
          · rename_i h4
            split at h
            · exact absurd h (by simp)
            · rename_i h5
              rcases Except.ok.inj h with rfl
              refine ⟨tc, hb, rfl, h1, h2, h3, h4, ?_⟩
              have h5' := not_not.mp h5
              simpa [Chunk.new] using h5'

theorem tryFrom_append_eq (v R : List Nat) (c : Chunk)
    (hv : ∀ b ∈ v, b < 256) (h : Chunk.tryFrom v = .ok c)
    (hx : v.length = c.length + 12) :
    Chunk.tryFrom (v ++ R) = .ok c := by
  obtain ⟨tc, hb, hc, h1, h2, h3, h4, h5⟩ := tryFrom_ok_shape v c h
  have htb : ∀ b ∈ v.take 4, b < 256 := fun b hb => hv b (List.mem_of_mem_take hb)
  have hlt4 : (v.take 4).length = 4 := by
    rw [List.length_take]
    omega
  have hn : fromBE32 (v.take 4) < 2^32 := fromBE32_lt _ hlt4 htb
  have hD : ((v.drop 8).take (fromBE32 (v.take 4))).length = fromBE32 (v.take 4) := by
    rw [List.length_take, List.length_drop]
    omega
  have hclen : c.length = fromBE32 (v.take 4) := by
    rw [hc]
    show ((v.drop 8).take (fromBE32 (v.take 4))).length % 2^32 = _
    rw [hD, Nat.mod_eq_of_lt hn]
  have hvlen : v.length = fromBE32 (v.take 4) + 12 := by omega
  have hT : ((v.drop 4).take 4).length = 4 := by
    rw [List.length_take, List.length_drop]
    omega
  have hC : ((v.drop (8 + fromBE32 (v.take 4))).take 4).length = 4 := by
    rw [List.length_take, List.length_drop]
    omega
  have hCfull : (v.drop (8 + fromBE32 (v.take 4))).take 4
      = v.drop (8 + fromBE32 (v.take 4)) := by
    apply List.take_of_length_le
    rw [List.length_drop]
    omega
  have hsplit : v = v.take 4 ++
      ((v.drop 4).take 4 ++
        ((v.drop 8).take (fromBE32 (v.take 4)) ++
          (v.drop (8 + fromBE32 (v.take 4))).take 4)) := by
    rw [hCfull]
    conv_lhs => rw [← List.take_append_drop 4 v]
    congr 1
    conv_lhs => rw [← List.take_append_drop 4 (v.drop 4)]
    rw [List.drop_drop]
    congr 1
    conv_lhs =>
      rw [← List.take_append_drop (fromBE32 (v.take 4)) (v.drop (4 + 4))]
    rw [List.drop_drop]
  have hL : v.take 4 = toBE32 (fromBE32 (v.take 4)) :=
    (toBE32_fromBE32 _ hlt4 htb).symm
  have hvR : v ++ R = toBE32 (fromBE32 (v.take 4)) ++
      ((v.drop 4).take 4 ++
        ((v.drop 8).take (fromBE32 (v.take 4)) ++
          ((v.drop (8 + fromBE32 (v.take 4))).take 4 ++ R))) := by
    conv_lhs => rw [hsplit]
    rw [← hL]
    simp [List.append_assoc]
  rw [hvR, tryFrom_decomp _ _ _ _ _ hT hD hn hC, hb]
  dsimp only
  have h5' : crc32 (tc.bytes ++ (v.drop 8).take (fromBE32 (v.take 4)))
      = fromBE32 ((v.drop (8 + fromBE32 (v.take 4))).take 4) := by
    rw [hc] at h5
    simpa [Chunk.new] using h5
  rw [if_neg (not_not_intro h5'), ← hc]

theorem build_ok_of_all (s : List Nat) (h4 : s.length = 4)
    (hall : s.all isAsciiAlphabetic = true) :
    ∃ t, ChunkType.build s = .ok t ∧ t.bytes = s := by
  rcases s with _ | ⟨a, _ | ⟨b, _ | ⟨c, _ | ⟨d, _ | ⟨e, s⟩⟩⟩⟩⟩
  · simp at h4
  · simp at h4
  · simp at h4
  · simp at h4
  · refine ⟨⟨a, b, c, d⟩, (build_ok_iff _ _).mpr ⟨rfl, ?_⟩, rfl⟩
    simpa [ChunkType.bytes] using hall
  · simp at h4

theorem build_error_of_all_false (s : List Nat) (h4 : s.length = 4)
    (hall : s.all isAsciiAlphabetic = false) :
    ChunkType.build s = .error .invalidTypeCode := by
  rcases s with _ | ⟨a, _ | ⟨b, _ | ⟨c, _ | ⟨d, _ | ⟨e, s⟩⟩⟩⟩⟩
  · simp at h4
  · simp at h4
  · simp at h4
  · simp at h4
  · exact build_error_of_not_alpha a b c d hall
  · simp at h4

theorem asBytes_new (t : ChunkType) (d : List Nat) (hlen : d.length < 2^32) :
    (Chunk.new t d).asBytes
      = toBE32 d.length ++ (t.bytes ++ (d ++ toBE32 (crc32 (t.bytes ++ d)))) := by
  simp only [Chunk.new, Chunk.asBytes]
  congr 2
  exact Nat.mod_eq_of_lt hlen

theorem asBytes_length (c : Chunk) (h : c.length = c.data.length) :
    c.asBytes.length = c.length + 12 := by
  simp only [Chunk.asBytes, List.length_append, toBE32_length, bytes_length]
  omega

theorem chunkNew_eta (c : Chunk) (h : ChunkWF c) :
    Chunk.new c.chunkType c.data = c := by
  obtain ⟨h1, h2, h3, h4, h5⟩ := h
  cases c with
  | mk len tc d crc =>
    simp only [Chunk.new, Chunk.mk.injEq]
    dsimp only at h1 h2 h5
    refine ⟨?_, trivial, trivial, h5.symm⟩
    rw [← h1] at h2 ⊢
    exact Nat.mod_eq_of_lt h2

theorem parseChunks_serialize (l : List Chunk) (h : ∀ c ∈ l, ChunkWF c) :
    parseChunks (serializeChunks l) = .ok l := by
  induction l with
  | nil => simp [serializeChunks, parseChunks]
  | cons c cs ih =>
    have hc := h c (List.mem_cons_self c cs)
    obtain ⟨h1, h2, h3, h4, h5⟩ := hc
    have hparse : Chunk.tryFrom (c.asBytes ++ serializeChunks cs) = .ok c := by
      have hr := tryFrom_new_append c.chunkType c.data (serializeChunks cs) h3 h2 h4
      rwa [chunkNew_eta c ⟨h1, h2, h3, h4, h5⟩] at hr
    have hlen : c.asBytes.length = c.length + 12 := asBytes_length c h1
    have hne : c.asBytes ++ serializeChunks cs ≠ [] := by
      intro hcontra
      have := congrArg List.length hcontra
      simp [List.length_append, hlen] at this
    show parseChunks (c.asBytes ++ serializeChunks cs) = .ok (c :: cs)
    rw [parseChunks.eq_def, dif_neg hne, hparse]
    dsimp only
    have hdrop : (c.asBytes ++ serializeChunks cs).drop (c.length + 12)
        = serializeChunks cs := List.drop_left' hlen
    rw [hdrop, ih (fun x hx => h x (List.mem_cons_of_mem c hx))]

theorem png_tryFrom_asBytes (p : Png) (h : ∀ c ∈ p.chunks, ChunkWF c) :
    Png.tryFrom p.asBytes = .ok p := by
  unfold Png.tryFrom Png.asBytes
  rw [List.take_left' (by rfl : pngSignature.length = 8), if_pos rfl,
    List.drop_left' (by rfl : pngSignature.length = 8),
    parseChunks_serialize p.chunks h]
  cases p
  rfl

theorem tryFrom_decompNoR (n : Nat) (T D C : List Nat)
    (hT : T.length = 4) (hD : D.length = n) (hn : n < 2^32) (hC : C.length = 4) :
    Chunk.tryFrom (toBE32 n ++ (T ++ (D ++ C))) =
      match ChunkType.build T with
      | .error e => .error e
      | .ok t =>
        if crc32 (t.bytes ++ D) ≠ fromBE32 C then .error .checksumMismatch
        else .ok (Chunk.new t D) := by
  have h := tryFrom_decomp n T D C [] hT hD hn hC
  rwa [List.append_nil] at h

theorem flip_decomp_type (L T M : List Nat) (i j : Nat)
    (hL : L.length = 4) (hT : T.length = 4) (h4 : 4 ≤ i) (h8 : i < 8) :
    flipBit (L ++ (T ++ M)) i j
      = L ++ (T.set (i - 4) (T.getD (i - 4) 0 ^^^ 2^j) ++ M) := by
  unfold flipBit
  have hgd : (L ++ (T ++ M)).getD i 0 = T.getD (i - 4) 0 := by
    rw [List.getD_append_right L (T ++ M) 0 i (by omega)]
    rw [List.getD_append T M 0 (i - L.length) (by omega)]
    rw [hL]
  rw [hgd, List.set_append_right _ _ (by omega : L.length ≤ i),
    List.set_append_left _ _ (by omega : i - L.length < T.length), hL]

theorem flip_decomp_payload (L T D M : List Nat) (i j : Nat)
    (hL : L.length = 4) (hT : T.length = 4) (h8 : 8 ≤ i) (hiD : i - 8 < D.length) :
    flipBit (L ++ (T ++ (D ++ M))) i j
      = L ++ (T ++ (D.set (i - 8) (D.getD (i - 8) 0 ^^^ 2^j) ++ M)) := by
  unfold flipBit
  have hgd : (L ++ (T ++ (D ++ M))).getD i 0 = D.getD (i - 8) 0 := by
    rw [List.getD_append_right L (T ++ (D ++ M)) 0 i (by omega)]
    rw [List.getD_append_right T (D ++ M) 0 (i - L.length) (by omega)]
    rw [List.getD_append D M 0 (i - L.length - T.length) (by omega)]
    rw [hL, hT]
    have : i - 4 - 4 = i - 8 := by omega
    rw [this]
  rw [hgd, List.set_append_right _ _ (by omega : L.length ≤ i),
    List.set_append_right _ _ (by omega : T.length ≤ i - L.length),
    List.set_append_left _ _ (by omega : i - L.length - T.length < D.length),
    hL, hT]
  have : i - 4 - 4 = i - 8 := by omega
  rw [this]

theorem tryFrom_flip (t : ChunkType) (d : List Nat) (i j : Nat)
    (ht : t.bytes.all isAsciiAlphabetic = true)
    (hlen : d.length < 2^32) (hd : ∀ b ∈ d, b < 256)
    (hj : j < 8) (hi4 : 4 ≤ i) (hilt : i < 8 + d.length) :
    Chunk.tryFrom (flipBit (Chunk.new t d).asBytes i j) =
      if (((flipBit (Chunk.new t d).asBytes i j).drop 4).take 4).all isAsciiAlphabetic
      then .error .checksumMismatch
      else .error .invalidTypeCode := by
  have he : (2:Nat)^j ≠ 0 := by positivity
  have he2 : (2:Nat)^j < 2^32 := Nat.pow_lt_pow_right (by norm_num) (by omega)
  have hshape := asBytes_new t d hlen
  have hstored : fromBE32 (toBE32 (crc32 (t.bytes ++ d))) = crc32 (t.bytes ++ d) :=
    fromBE32_toBE32 _ (crc32_lt _ (msg_bytes_lt t d ht hd))
  rw [hshape]
  by_cases hcase : i < 8
  · rw [flip_decomp_type (toBE32 d.length) t.bytes
      (d ++ toBE32 (crc32 (t.bytes ++ d))) i j (toBE32_length _) (bytes_length t)
      hi4 hcase]
    have hT4 : (t.bytes.set (i - 4) (t.bytes.getD (i - 4) 0 ^^^ 2^j)).length = 4 := by
      rw [List.length_set, bytes_length]
    rw [tryFrom_decompNoR d.length _ d _ hT4 rfl hlen (toBE32_length _)]
    rw [List.drop_left' (toBE32_length _), List.take_left' hT4]
    have hmsg : t.bytes.set (i - 4) (t.bytes.getD (i - 4) 0 ^^^ 2^j) ++ d
        = (t.bytes ++ d).set (i - 4) ((t.bytes ++ d).getD (i - 4) 0 ^^^ 2^j) := by
      have hb4 : t.bytes.length = 4 := bytes_length t
      rw [List.set_append_left _ _ (by omega : i - 4 < t.bytes.length),
        List.getD_append t.bytes d 0 (i - 4) (by omega)]
    have hne : crc32 (t.bytes.set (i - 4) (t.bytes.getD (i - 4) 0 ^^^ 2^j) ++ d)
        ≠ crc32 (t.bytes ++ d) := by
      rw [hmsg]
      exact crc32_set_ne (t.bytes ++ d) (i - 4) (2^j)
        (by rw [List.length_append, bytes_length]; omega) he he2
    by_cases halpha :
      ((t.bytes.set (i - 4) (t.bytes.getD (i - 4) 0 ^^^ 2^j)).all isAsciiAlphabetic) = true
    · obtain ⟨t', hbt', hbytes⟩ := build_ok_of_all _ hT4 halpha
      rw [hbt']
      dsimp only
      rw [hstored, if_pos (by rw [hbytes]; exact hne), if_pos halpha]
    · rw [build_error_of_all_false _ hT4 (Bool.not_eq_true _ ▸ halpha), if_neg halpha]
  · rw [flip_decomp_payload (toBE32 d.length) t.bytes d
      (toBE32 (crc32 (t.bytes ++ d))) i j (toBE32_length _) (bytes_length t)
      (by omega) (by omega)]
    have hD' : (d.set (i - 8) (d.getD (i - 8) 0 ^^^ 2^j)).length = d.length :=
      List.length_set d _ _
    rw [tryFrom_decompNoR d.length t.bytes _ _ (bytes_length t) hD' hlen
      (toBE32_length _)]
    have hb : ChunkType.build t.bytes = .ok t := (build_ok_iff _ _).mpr ⟨rfl, ht⟩
    rw [hb]
    dsimp only
    have hmsg : t.bytes ++ d.set (i - 8) (d.getD (i - 8) 0 ^^^ 2^j)
        = (t.bytes ++ d).set (4 + (i - 8))
            ((t.bytes ++ d).getD (4 + (i - 8)) 0 ^^^ 2^j) := by
      have hb4 : t.bytes.length = 4 := bytes_length t
      rw [List.set_append_right _ _ (by omega : t.bytes.length ≤ 4 + (i - 8)),
        List.getD_append_right t.bytes d 0 (4 + (i - 8)) (by omega), hb4]
      have h48 : 4 + (i - 8) - 4 = i - 8 := by omega
      rw [h48]
    have hne : crc32 (t.bytes ++ d.set (i - 8) (d.getD (i - 8) 0 ^^^ 2^j))
        ≠ crc32 (t.bytes ++ d) := by
      rw [hmsg]
      exact crc32_set_ne (t.bytes ++ d) (4 + (i - 8)) (2^j)
        (by rw [List.length_append, bytes_length]; omega) he he2
    rw [hstored, if_pos hne]
    rw [List.drop_left' (toBE32_length _), List.take_left' (bytes_length t),
      if_pos ht]

/-- The 42-byte payload `"This is where your secret message will be!"` used by
the source's tests and the spec's concrete checksum example. -/
def secretMsg : List Nat :=
  [84, 104, 105, 115, 32, 105, 115, 32, 119, 104, 101, 114, 101, 32, 121, 111,
   117, 114, 32, 115, 101, 99, 114, 101, 116, 32, 109, 101, 115, 115, 97, 103,
   101, 32, 119, 105, 108, 108, 32, 98, 101, 33]

/-! ### Claim theorems -/

/-- Claim C1 (amended): for a record built by `Chunk::new` from a valid type
code and payload bytes, parsing its serialization succeeds and yields a record
equal to it (all four fields equal), provided the payload is shorter than
`2^32` bytes; at `2^32` bytes or more the stored `u32` length wraps and the
round trip fails (see the counterexample). -/
theorem chunk_roundtrip (s : List Nat) (t : ChunkType) (d : List Nat)
    (hs : ChunkType.build s = .ok t) (hlen : d.length < 2^32)
    (hd : ∀ b ∈ d, b < 256) :
    Chunk.tryFrom (Chunk.new t d).asBytes = .ok (Chunk.new t d) := by
  have hr := tryFrom_new_append t d [] ((build_ok_iff s t).mp hs).2 hlen hd
  rwa [List.append_nil] at hr

/-- Claim C1 witness: the round trip at type `"RuSt"` and payload `[1, 2, 3]`. -/
theorem chunk_roundtrip_witness :
    Chunk.tryFrom (Chunk.new ⟨82, 117, 83, 116⟩ [1, 2, 3]).asBytes
      = .ok (Chunk.new ⟨82, 117, 83, 116⟩ [1, 2, 3]) :=
  chunk_roundtrip [82, 117, 83, 116] ⟨82, 117, 83, 116⟩ [1, 2, 3]
    (by decide) (by decide) (by decide)

theorem roundtrip_fails_pow32 (N : Nat) (hN : N = 2^32) :
    Chunk.tryFrom (Chunk.new ⟨82, 117, 83, 116⟩ (List.replicate N 0)).asBytes
      = .error .checksumMismatch := by
  have h4 : N = 4 + (N - 4) := by omega
  have hrep : List.replicate N (0:Nat)
      = List.replicate 4 0 ++ List.replicate (N - 4) 0 := by
    conv_lhs => rw [h4]
    rw [List.replicate_add]
  have hlenmod : N % 2^32 = 0 := by
    rw [hN]
    exact Nat.mod_self _
  have hshape :
      (Chunk.new (⟨82, 117, 83, 116⟩ : ChunkType) (List.replicate N 0)).asBytes
        = toBE32 0 ++ ([82, 117, 83, 116] ++ ([] ++ (List.replicate 4 0 ++
            (List.replicate (N - 4) 0 ++
              toBE32 (crc32 ([82, 117, 83, 116] ++
                (List.replicate 4 0 ++ List.replicate (N - 4) 0))))))) := by
    simp only [Chunk.new, Chunk.asBytes, ChunkType.bytes, List.length_replicate,
      hlenmod]
    conv_lhs => rw [hrep]
    simp only [List.append_assoc, List.nil_append]
  rw [hshape, tryFrom_decomp 0 [82, 117, 83, 116] [] (List.replicate 4 0) _
    rfl rfl (by norm_num) (by simp)]
  rw [show ChunkType.build [82, 117, 83, 116]
    = .ok (⟨82, 117, 83, 116⟩ : ChunkType) from by decide]
  dsimp only
  rw [if_pos (by decide)]

/-- Claim C1 counterexample: with type `"RuSt"` and a `2^32`-byte payload of
zeros, `data.len() as u32` wraps to 0, so the serialization parses an empty
payload and a zero checksum and fails with `checksumMismatch` instead of
returning the original record. -/
theorem chunk_roundtrip_counterexample :
    Chunk.tryFrom (Chunk.new ⟨82, 117, 83, 116⟩ (List.replicate (2^32) 0)).asBytes
      = .error .checksumMismatch :=
  roundtrip_fails_pow32 (2^32) rfl

/-- Claim C2 (amended): flipping one bit of a well-formed serialized record in
the payload region always yields `checksumMismatch`; flipping one bit in the
type-code region yields `checksumMismatch` when the modified code is still
four ASCII letters, and `invalidTypeCode` otherwise (the original claim said
`checksumMismatch` for every such flip; the counterexample shows a type-region
flip that produces a non-letter byte and a different error kind). -/
theorem chunk_parse_bitflip (s : List Nat) (t : ChunkType) (d : List Nat)
    (i j : Nat) (hs : ChunkType.build s = .ok t) (hlen : d.length < 2^32)
    (hd : ∀ b ∈ d, b < 256) (hj : j < 8) (hi4 : 4 ≤ i) (hilt : i < 8 + d.length) :
    Chunk.tryFrom (flipBit (Chunk.new t d).asBytes i j) =
      if (((flipBit (Chunk.new t d).asBytes i j).drop 4).take 4).all
           isAsciiAlphabetic
      then .error .checksumMismatch
      else .error .invalidTypeCode :=
  tryFrom_flip t d i j ((build_ok_iff s t).mp hs).2 hlen hd hj hi4 hilt

/-- Claim C2 witness: flipping bit 5 of the first type byte of the serialized
`"RuSt"` record with empty payload (a case-toggling flip, so the code stays
alphabetic and the parse fails with `checksumMismatch`). -/
theorem chunk_parse_bitflip_witness :
    Chunk.tryFrom (flipBit (Chunk.new ⟨82, 117, 83, 116⟩ []).asBytes 4 5) =
      if (((flipBit (Chunk.new ⟨82, 117, 83, 116⟩ []).asBytes 4 5).drop 4).take 4).all
           isAsciiAlphabetic
      then .error .checksumMismatch
      else .error .invalidTypeCode :=
  chunk_parse_bitflip [82, 117, 83, 116] ⟨82, 117, 83, 116⟩ [] 4 5
    (by decide) (by decide) (by decide) (by decide) (by decide) (by decide)

/-- Claim C2 counterexample: the serialized `"RuSt"` record with empty payload
is well-formed (it parses back), yet flipping bit 6 of type byte 0 turns `'R'`
(0x52) into the non-letter 0x12, and the parse fails with `invalidTypeCode`,
not `checksumMismatch`. -/
theorem chunk_parse_bitflip_counterexample :
    Chunk.tryFrom (Chunk.new ⟨82, 117, 83, 116⟩ []).asBytes
      = .ok (Chunk.new ⟨82, 117, 83, 116⟩ []) ∧
    Chunk.tryFrom (flipBit (Chunk.new ⟨82, 117, 83, 116⟩ []).asBytes 4 6)
      = .error .invalidTypeCode ∧
    (Except.error PngError.invalidTypeCode : Except PngError Chunk)
      ≠ .error .checksumMismatch := by
  refine ⟨by decide, by decide, by decide⟩

/-- Claim C3: `Chunk.tryFrom` reads, in order, a 4-byte big-endian length, a
4-byte type code validated as in `ChunkType` construction with its failure
propagated, exactly `length` payload bytes, and a 4-byte big-endian checksum;
it fails with a truncation error whenever the buffer holds fewer bytes than a
field requires, fails with `checksumMismatch` after reading all fields iff the
stored checksum differs from the one recomputed over type bytes ++ payload
(this is the extensional equality with `chunkParseSpec`, the procedure worded
exactly as in spec §4.2), and on success the returned record's stored checksum
equals the recomputed one. -/
theorem chunk_parse_spec_conformance (v : List Nat) :
    Chunk.tryFrom v = chunkParseSpec v ∧
      (match Chunk.tryFrom v with
       | .ok c => c.crc = crc32 (c.chunkType.bytes ++ c.data)
       | .error _ => True) := by
  refine ⟨tryFrom_eq_spec v, ?_⟩
  cases hv : Chunk.tryFrom v with
  | error e => trivial
  | ok c =>
    obtain ⟨tc, hb, hc, _, _, _, _, h5⟩ := tryFrom_ok_shape v c hv
    rw [hc]
    rfl

/-- Claim C4 (amended): `Chunk::new` always succeeds, stores — for every
payload — the checksum computed by CRC-32/ISO-HDLC over the 4 type-code bytes
followed by the payload, and stores a length equal to the payload byte count
provided that count is below `2^32` (the original claim said the length
conjunct for every payload; the counterexample shows the `as u32` cast
wrapping at `2^32` bytes); concretely, type `"RuSt"` with the 42-byte
secret-message payload yields checksum 2882656334. -/
theorem chunk_new_fields (t : ChunkType) (d : List Nat) :
    (Chunk.new t d).crc = crc32 (t.bytes ++ d) ∧
    (d.length < 2^32 → (Chunk.new t d).length = d.length) ∧
    (Chunk.new ⟨82, 117, 83, 116⟩ secretMsg).crc = 2882656334 := by
  refine ⟨rfl, ?_, by decide⟩
  intro hlen
  show d.length % 2^32 = d.length
  exact Nat.mod_eq_of_lt hlen

/-- Claim C4 witness: the field equations at type `"RuSt"` and the 42-byte
secret-message payload, with the length bound discharged there. -/
theorem chunk_new_fields_witness :
    (Chunk.new ⟨82, 117, 83, 116⟩ secretMsg).crc
      = crc32 ((⟨82, 117, 83, 116⟩ : ChunkType).bytes ++ secretMsg) ∧
    (Chunk.new ⟨82, 117, 83, 116⟩ secretMsg).length = secretMsg.length ∧
    (Chunk.new ⟨82, 117, 83, 116⟩ secretMsg).crc = 2882656334 :=
  ⟨(chunk_new_fields ⟨82, 117, 83, 116⟩ secretMsg).1,
   (chunk_new_fields ⟨82, 117, 83, 116⟩ secretMsg).2.1 (by decide),
   (chunk_new_fields ⟨82, 117, 83, 116⟩ secretMsg).2.2⟩

theorem length_wraps_pow32 (N : Nat) (hN : N = 2^32) :
    (Chunk.new ⟨82, 117, 83, 116⟩ (List.replicate N 0)).length
      ≠ (List.replicate N (0:Nat)).length := by
  show (List.replicate N (0:Nat)).length % 2^32 ≠ (List.replicate N (0:Nat)).length
  rw [List.length_replicate, hN, Nat.mod_self]
  norm_num

/-- Claim C4 counterexample: for the `2^32`-byte all-zero payload the stored
length is `2^32 % 2^32 = 0`, not the payload byte count. -/
theorem chunk_new_fields_counterexample :
    (Chunk.new ⟨82, 117, 83, 116⟩ (List.replicate (2^32) 0)).length
      ≠ (List.replicate (2^32) (0:Nat)).length :=
  length_wraps_pow32 (2^32) rfl

/-- Claim C5: `ChunkType` construction (from 4 raw bytes via `try_from` or
from a string via `from_str`, both of which delegate to `build`) succeeds iff
the input is exactly 4 bytes long and every byte is an ASCII letter, and on
success the constructed value's `bytes()` equal the input. -/
theorem chunk_type_build_charset (s : List Nat) :
    (match ChunkType.build s with
     | .ok t => t.bytes = s ∧ s.length = 4 ∧ s.all isAsciiAlphabetic = true
     | .error _ => ¬ (s.length = 4 ∧ s.all isAsciiAlphabetic = true)) ∧
    ChunkType.fromStr s = ChunkType.build s ∧
    ChunkType.tryFrom s = ChunkType.build s := by
  refine ⟨?_, rfl, rfl⟩
  cases hb : ChunkType.build s with
  | ok t =>
    obtain ⟨hseq, hall⟩ := (build_ok_iff s t).mp hb
    refine ⟨hseq.symm, ?_, ?_⟩
    · rw [hseq, bytes_length]
    · rw [hseq]
      exact hall
  | error e =>
    rintro ⟨h4, hall⟩
    obtain ⟨t, hbt, _⟩ := build_ok_of_all s h4 hall
    rw [hb] at hbt
    exact absurd hbt (by simp)

theorem fifth_bit_iff (b : Nat) :
    ChunkType.fifth_bit_is_zero b = true ↔ b.testBit 5 = false := by
  unfold ChunkType.fifth_bit_is_zero
  rw [beq_iff_eq]
  constructor
  · intro h
    have h5 := congrArg (fun x => Nat.testBit x 5) h
    simp only [Nat.testBit_and, Nat.zero_testBit] at h5
    have h32 : Nat.testBit 32 5 = true := by decide
    rw [h32, Bool.and_true] at h5
    exact h5
  · intro h
    apply Nat.eq_of_testBit_eq
    intro i
    rw [Nat.testBit_and, Nat.zero_testBit]
    rcases eq_or_ne i 5 with rfl | hne
    · simp [h]
    · have h32 : Nat.testBit 32 i = false := by
        have h2 : (32 : Nat) = 2^5 := by norm_num
        rw [h2, Nat.testBit_two_pow]
        simp [Ne.symm hne]
      simp [h32]

/-- Claim C6: each property flag of a `ChunkType` is computed from bit 0x20
(bit 5) of one specific byte — `is_critical` iff bit 5 of byte 0 is clear,
`is_public` iff bit 5 of byte 1 is clear, `is_reserved_bit_valid` iff bit 5 of
byte 2 is clear, `is_safe_to_copy` iff bit 5 of byte 3 is set (the only
inverted polarity), and `is_valid` equals `is_reserved_bit_valid`; concretely
`"RuSt"` is critical, not public, reserved-bit valid, safe to copy and valid,
while `"Rust"` is neither reserved-bit valid nor valid. -/
theorem chunk_type_flag_bits (t : ChunkType) :
    (t.is_critical = true ↔ t.b0.testBit 5 = false) ∧
    (t.is_public = true ↔ t.b1.testBit 5 = false) ∧
    (t.is_reserved_bit_valid = true ↔ t.b2.testBit 5 = false) ∧
    (t.is_safe_to_copy = true ↔ t.b3.testBit 5 = true) ∧
    t.is_valid = t.is_reserved_bit_valid ∧
    (ChunkType.is_critical ⟨82, 117, 83, 116⟩ = true ∧
     ChunkType.is_public ⟨82, 117, 83, 116⟩ = false ∧
     ChunkType.is_reserved_bit_valid ⟨82, 117, 83, 116⟩ = true ∧
     ChunkType.is_safe_to_copy ⟨82, 117, 83, 116⟩ = true ∧
     ChunkType.is_valid ⟨82, 117, 83, 116⟩ = true) ∧
    (ChunkType.is_reserved_bit_valid ⟨82, 117, 115, 116⟩ = false ∧
     ChunkType.is_valid ⟨82, 117, 115, 116⟩ = false) := by
  refine ⟨fifth_bit_iff t.b0, fifth_bit_iff t.b1, fifth_bit_iff t.b2, ?_,
    rfl, by decide, by decide⟩
  have hiff := fifth_bit_iff t.b3
  unfold ChunkType.is_safe_to_copy
  cases hz : ChunkType.fifth_bit_is_zero t.b3 <;> simp_all

/-- Claim C7: serialization of a record is exactly the big-endian 4-byte
length, the 4 type-code bytes, the payload bytes and the big-endian 4-byte
checksum, in that order, and (under the data-model invariant that the stored
length is the payload byte count) its total size is `length + 12` bytes. -/
theorem chunk_serialize_layout (c : Chunk) (h : c.length = c.data.length) :
    c.asBytes = toBE32 c.length ++ c.chunkType.bytes ++ c.data ++ toBE32 c.crc ∧
    c.asBytes.length = c.length + 12 :=
  ⟨by simp [Chunk.asBytes, List.append_assoc], asBytes_length c h⟩

/-- Claim C7 witness: the layout of the record with type `"RuSt"` and payload
`[7]`. -/
theorem chunk_serialize_layout_witness :
    (Chunk.new ⟨82, 117, 83, 116⟩ [7]).asBytes
        = toBE32 (Chunk.new ⟨82, 117, 83, 116⟩ [7]).length ++
          (Chunk.new ⟨82, 117, 83, 116⟩ [7]).chunkType.bytes ++
          (Chunk.new ⟨82, 117, 83, 116⟩ [7]).data ++
          toBE32 (Chunk.new ⟨82, 117, 83, 116⟩ [7]).crc ∧
    (Chunk.new ⟨82, 117, 83, 116⟩ [7]).asBytes.length
        = (Chunk.new ⟨82, 117, 83, 116⟩ [7]).length + 12 :=
  chunk_serialize_layout (Chunk.new ⟨82, 117, 83, 116⟩ [7]) (by decide)

/-- Claim C8: for every ChunkContainer whose records satisfy the data-model
invariant, parsing the serialization (the 8-byte signature constant followed
by each record's serialized form in stored order) succeeds and yields a
container with the same ordered sequence of records.  The container is
modelled from the spec, since `png.rs` is not among the available sources. -/
theorem png_roundtrip (p : Png) (h : ∀ c ∈ p.chunks, ChunkWF c) :
    Png.tryFrom p.asBytes = .ok p :=
  png_tryFrom_asBytes p h

/-- Claim C8 witness: the container holding the single record with type
`"RuSt"` and payload `[7]` round-trips. -/
theorem png_roundtrip_witness :
    Png.tryFrom (Png.asBytes ⟨[Chunk.new ⟨82, 117, 83, 116⟩ [7]]⟩)
      = .ok ⟨[Chunk.new ⟨82, 117, 83, 116⟩ [7]]⟩ :=
  png_roundtrip ⟨[Chunk.new ⟨82, 117, 83, 116⟩ [7]]⟩ (by decide)

/-- Claim C9: `Chunk.tryFrom` never reads past the record it parses — when a
byte buffer parses successfully and is exactly `length + 12` bytes long,
appending arbitrary trailing bytes leaves the parse result unchanged. -/
theorem chunk_parse_ignores_trailing (v extra : List Nat) (c : Chunk)
    (hv : ∀ b ∈ v, b < 256) (h : Chunk.tryFrom v = .ok c)
    (hx : v.length = c.length + 12) :
    Chunk.tryFrom (v ++ extra) = Chunk.tryFrom v := by
  rw [h]
  exact tryFrom_append_eq v extra c hv h hx

/-- Claim C9 witness: appending `[7, 7]` to the serialized `"RuSt"` record
with empty payload does not change the parse result. -/
theorem chunk_parse_ignores_trailing_witness :
    Chunk.tryFrom ((Chunk.new ⟨82, 117, 83, 116⟩ []).asBytes ++ [7, 7])
      = Chunk.tryFrom (Chunk.new ⟨82, 117, 83, 116⟩ []).asBytes :=
  chunk_parse_ignores_trailing (Chunk.new ⟨82, 117, 83, 116⟩ []).asBytes [7, 7]
    (Chunk.new ⟨82, 117, 83, 116⟩ []) (by decide) (by decide) (by decide)

/-- Claim C10: no record operation enforces the overall type-validity flag —
`Chunk.new` accepts every constructed `ChunkType`, including ones whose
`is_valid()` is false (reserved bit set), storing it unchanged, and
`Chunk.tryFrom` accepts the serialized record with such a type code when the
checksum matches. -/
theorem chunk_ops_ignore_validity (s : List Nat) (t : ChunkType) (d : List Nat)
    (hs : ChunkType.build s = .ok t) (hvalid : t.is_valid = false)
    (hlen : d.length < 2^32) (hd : ∀ b ∈ d, b < 256) :
    (Chunk.new t d).chunkType = t ∧
    (Chunk.new t d).chunkType.is_valid = false ∧
    Chunk.tryFrom (Chunk.new t d).asBytes = .ok (Chunk.new t d) := by
  have hr := tryFrom_new_append t d [] ((build_ok_iff s t).mp hs).2 hlen hd
  rw [List.append_nil] at hr
  exact ⟨rfl, hvalid, hr⟩

/-- Claim C10 witness: the reserved-bit-invalid type `"Rust"` is accepted by
`Chunk.new` and its serialized record parses back successfully. -/
theorem chunk_ops_ignore_validity_witness :
    (Chunk.new ⟨82, 117, 115, 116⟩ []).chunkType = ⟨82, 117, 115, 116⟩ ∧
    (Chunk.new ⟨82, 117, 115, 116⟩ []).chunkType.is_valid = false ∧
    Chunk.tryFrom (Chunk.new ⟨82, 117, 115, 116⟩ []).asBytes
      = .ok (Chunk.new ⟨82, 117, 115, 116⟩ []) :=
  chunk_ops_ignore_validity [82, 117, 115, 116] ⟨82, 117, 115, 116⟩ []
    (by decide) (by decide) (by decide) (by decide)
